import Mathlib

/-!
Verification development for the job-mailer bulk dispatch engine
(src/main.rs).  Strings are embedded as lists of characters; Rust's
`str::replace` is embedded as a left-to-right scan replacing all
non-overlapping occurrences of a (non-empty) pattern.  The interactive
shell, SMTP transport, clock and random source are injected capabilities,
and serde_json's text layer is abstracted at the level of JSON values
(the persisted file holds an optional JSON document).
-/

/-- Strings of the embedded program: lists of characters. -/
abbrev Str := List Char

/-- Embed a Lean string literal as a character list. -/
def str (s : String) : Str := s.data

/-- Fuel-driven scan implementing Rust `str::replace`: at each position,
if the pattern is a prefix of the remaining text, emit the replacement and
skip past the pattern, otherwise emit one character and continue.  The
fuel is the length of the scanned text, which suffices for every
non-empty pattern (the program only ever replaces non-empty tokens;
Rust's empty-pattern edge behaviour is not modelled). -/
def replaceF (pat rep : Str) : Nat → Str → Str
  | 0, s => s
  | _ + 1, [] => []
  | fuel + 1, c :: cs =>
    if pat.isPrefixOf (c :: cs) then rep ++ replaceF pat rep fuel (List.drop pat.length (c :: cs))
    else c :: replaceF pat rep fuel cs

/-- Rust `s.replace(pat, rep)`: replace every non-overlapping occurrence
of `pat` in `s` by `rep`, scanning left to right. -/
def replace (s pat rep : Str) : Str := replaceF pat rep s.length s

/-- Rust `str::contains` for a substring pattern: does `pat` occur
(contiguously) anywhere in `s`? -/
def containsSubstr : Str → Str → Bool
  | [], pat => pat.isPrefixOf []
  | c :: cs, pat => pat.isPrefixOf (c :: cs) || containsSubstr cs pat

/-- Sender identity and résumé fields, from `struct Profile`.
`experience_years` is a `u8` in the source; only its decimal rendering is
used, so it is embedded as `Nat`. -/
structure Profile where
  name : Str
  email : Str
  phone : Str
  title : Str
  summary : Str
  skills : List Str
  experience_years : Nat
  linkedin : Option Str
  github : Option Str
deriving DecidableEq

/-- SMTP endpoint, from `struct SmtpConfig`. -/
structure SmtpConfig where
  host : Str
  port : Nat
deriving DecidableEq

/-- Subject/body template, from `struct EmailTemplate`. -/
structure EmailTemplate where
  subject : Str
  body : Str
deriving DecidableEq

/-- Full configuration, from `struct Config`. -/
structure Config where
  profile : Profile
  smtp : SmtpConfig
  template : EmailTemplate
deriving DecidableEq

/-- One delivery outcome, from `struct SentRecord`.  The
`DateTime<Local>` timestamp is embedded as its serialized string. -/
structure SentRecord where
  email : Str
  sent_at : Str
  success : Bool
  error : Option Str
deriving DecidableEq

/-- The delivery log, from `struct SentLog`. -/
structure SentLog where
  records : List SentRecord
deriving DecidableEq

/-- Placeholder token `{{name}}`. -/
def tkName : Str := str "\x7b\x7bname\x7d\x7d"

/-- Placeholder token `{{email}}`. -/
def tkEmail : Str := str "\x7b\x7bemail\x7d\x7d"

/-- Placeholder token `{{phone}}`. -/
def tkPhone : Str := str "\x7b\x7bphone\x7d\x7d"

/-- Placeholder token `{{title}}`. -/
def tkTitle : Str := str "\x7b\x7btitle\x7d\x7d"

/-- Placeholder token `{{summary}}`. -/
def tkSummary : Str := str "\x7b\x7bsummary\x7d\x7d"

/-- Placeholder token `{{skills}}`. -/
def tkSkills : Str := str "\x7b\x7bskills\x7d\x7d"

/-- Placeholder token `{{experience_years}}`. -/
def tkExperience : Str := str "\x7b\x7bexperience_years\x7d\x7d"

/-- Placeholder token `{{linkedin}}`. -/
def tkLinkedin : Str := str "\x7b\x7blinkedin\x7d\x7d"

/-- Placeholder token `{{github}}`. -/
def tkGithub : Str := str "\x7b\x7bgithub\x7d\x7d"

/-- The nine placeholder tokens recognized by `build_email`. -/
def recognizedTokens : List Str :=
  [tkName, tkEmail, tkPhone, tkTitle, tkSummary, tkSkills, tkExperience, tkLinkedin, tkGithub]

/-- `fn build_email(config: &Config) -> (String, String)` (src/main.rs,
lines 99-119): the subject replaces `{{name}}` then `{{title}}`; the body
replaces, in order, `{{name}}`, `{{email}}`, `{{phone}}`, `{{title}}`,
`{{summary}}`, `{{skills}}` (comma-space-joined), `{{experience_years}}`
(decimal), `{{linkedin}}` and `{{github}}` (value or `N/A`). -/
def build_email (config : Config) : Str × Str :=
  let p := config.profile
  let t := config.template
  let subj := replace (replace t.subject tkName p.name) tkTitle p.title
  let body :=
    replace (replace (replace (replace (replace (replace (replace (replace (replace
      t.body
      tkName p.name)
      tkEmail p.email)
      tkPhone p.phone)
      tkTitle p.title)
      tkSummary p.summary)
      tkSkills (List.intercalate (str ", ") p.skills))
      tkExperience (Nat.toDigits 10 p.experience_years))
      tkLinkedin (p.linkedin.getD (str "N/A")))
      tkGithub (p.github.getD (str "N/A"))
  (subj, body)

/-- The rendered (subject, body) pair `send_email` uses for one delivery
(src/main.rs, line 122): `send_email` calls `build_email(config)` afresh
for the given recipient; the recipient does not influence rendering. -/
def send_email_rendered (config : Config) (_to : Str) : Str × Str :=
  build_email config

/-- JSON values, the abstraction level at which serde_json persistence is
modelled (its concrete text rendering and parsing are external-crate
code; they round-trip on JSON values). -/
inductive Json where
  | null : Json
  | bool : Bool → Json
  | str : Str → Json
  | arr : List Json → Json
  | obj : List (Str × Json) → Json

/-- Serde field key `email`. -/
def fldEmail : Str := str "email"

/-- Serde field key `sent_at`. -/
def fldSentAt : Str := str "sent_at"

/-- Serde field key `success`. -/
def fldSuccess : Str := str "success"

/-- Serde field key `error`. -/
def fldError : Str := str "error"

/-- Serde field key `records`. -/
def fldRecords : Str := str "records"

/-- Serde serialization of one `SentRecord`. -/
def encodeRecord (r : SentRecord) : Json :=
  Json.obj
    [(fldEmail, Json.str r.email),
     (fldSentAt, Json.str r.sent_at),
     (fldSuccess, Json.bool r.success),
     (fldError, match r.error with | none => Json.null | some e => Json.str e)]

/-- Serde serialization of the whole `SentLog`. -/
def encodeLog (log : SentLog) : Json :=
  Json.obj [(fldRecords, Json.arr (log.records.map encodeRecord))]

/-- Serde deserialization of one `SentRecord`. -/
def decodeRecord : Json → Option SentRecord
  | Json.obj [(k1, Json.str e), (k2, Json.str t), (k3, Json.bool b), (k4, v)] =>
    if k1 = fldEmail ∧ k2 = fldSentAt ∧ k3 = fldSuccess ∧ k4 = fldError then
      match v with
      | Json.null => some ⟨e, t, b, none⟩
      | Json.str s => some ⟨e, t, b, some s⟩
      | _ => none
    else none
  | _ => none

/-- Deserialize a list of records, failing if any element fails. -/
def decodeRecords : List Json → Option (List SentRecord)
  | [] => some []
  | j :: rest =>
    match decodeRecord j, decodeRecords rest with
    | some r, some rs => some (r :: rs)
    | _, _ => none

/-- Serde deserialization of a `SentLog`. -/
def decodeLog : Json → Option SentLog
  | Json.obj [(k, Json.arr xs)] =>
    if k = fldRecords then (decodeRecords xs).map SentLog.mk else none
  | _ => none

/-- `fn load_log() -> SentLog` (src/main.rs, lines 87-92): read the log
file and parse it; an absent file (`.ok()`) or unparseable contents
(`.ok()`) degrade to the default empty log (`.unwrap_or_default()`). -/
def load_log (file : Option Json) : SentLog :=
  match file with
  | none => ⟨[]⟩
  | some j => (decodeLog j).getD ⟨[]⟩

/-- `fn save_log(log: &SentLog) -> Result<()>` (src/main.rs, lines 94-97):
the document written to the log file, namely the serialization of the
entire log.  Whether the underlying write succeeds is injected separately
(`BulkEnv.saveOk`). -/
def save_log (log : SentLog) : Json := encodeLog log

/-- `log.records.push(record)` on an immutable embedding of the log. -/
def append_record (log : SentLog) (r : SentRecord) : SentLog :=
  ⟨log.records ++ [r]⟩

/-- Injected environment of one bulk run: the immutable configuration,
the SMTP transport (`none` = delivered, `some e` = error description `e`,
per attempt index and recipient), the clock (`Local::now()` rendered per
attempt), the random source (one seed per attempt) and whether the
`fs::write` inside `save_log` succeeds for each attempt. -/
structure BulkEnv where
  config : Config
  transport : Nat → Str → Option Str
  now : Nat → Str
  rng : Nat → Nat
  saveOk : Nat → Bool

/-- Observable outcome of a bulk run: final in-memory log, final log-file
contents, the success and failure tallies, the invoked delays, the
recipients for which a send was attempted (in order), the rendered
message used for each attempted send, and whether a storage error aborted
the loop (the `?` on `save_log` propagating an `Err`). -/
structure BulkResult where
  log : SentLog
  file : Option Json
  success : Nat
  failed : Nat
  delays : List Nat
  attempted : List Str
  messages : List (Str × Str)
  aborted : Bool

/-- The record built for attempt `i` to `email` (src/main.rs, lines
270-275): recipient, timestamp, `result.is_ok()`, and the error
description when delivery failed. -/
def mkRecord (env : BulkEnv) (i : Nat) (email : Str) : SentRecord :=
  ⟨email, env.now i, (env.transport i email).isNone, env.transport i email⟩

/-- The records a run starting at attempt index `i` produces for a list
of recipients. -/
def recordsFrom (env : BulkEnv) : Nat → List Str → List SentRecord
  | _, [] => []
  | i, e :: rest => mkRecord env i e :: recordsFrom env (i + 1) rest

/-- `rand::thread_rng().gen_range(lo..=hi)` (src/main.rs, line 294):
a draw from the inclusive interval `[lo, hi]`, modelled from an injected
seed; defined whenever `lo ≤ hi` (Rust panics on an empty range). -/
def gen_range (lo hi seed : Nat) : Nat := lo + seed % (hi + 1 - lo)

/-- The `for (i, email) in emails.iter().enumerate()` loop of `send_bulk`
(src/main.rs, lines 265-298), starting at attempt index `i`: render and
send, build the record, push it, persist the whole log (a failed persist
propagates `Err` and aborts the loop with the in-memory record kept),
tally the outcome, and sleep a random delay unless this was the last
recipient. -/
def send_bulk_go (env : BulkEnv) (minDelay maxDelay : Nat) :
    Nat → List Str → SentLog → Option Json → BulkResult
  | _, [], log, file => ⟨log, file, 0, 0, [], [], [], false⟩
  | i, email :: rest, log, file =>
    let msg := build_email env.config
    let result := env.transport i email
    let log2 := append_record log (mkRecord env i email)
    if env.saveOk i then
      let r := send_bulk_go env minDelay maxDelay (i + 1) rest log2 (some (save_log log2))
      ⟨r.log, r.file,
       (if result.isNone then 1 else 0) + r.success,
       (if result.isNone then 0 else 1) + r.failed,
       (if rest.isEmpty then [] else [gen_range minDelay maxDelay (env.rng i)]) ++ r.delays,
       email :: r.attempted,
       msg :: r.messages,
       r.aborted⟩
    else
      ⟨log2, file, 0, 0, [], [email], [msg], true⟩

/-- The recipient-collection loop of `send_bulk` (src/main.rs, lines
208-221): read lines until an empty line; keep a line iff it contains
`'@'`, otherwise report it invalid and drop it. -/
def collect_emails : List Str → List Str
  | [] => []
  | line :: rest =>
    if line.isEmpty then []
    else if line.contains '@' then line :: collect_emails rest
    else collect_emails rest

/-- `fn send_bulk` (src/main.rs, lines 205-310): collect recipients; if
none were entered return `Ok(())` immediately with no side effects; if
the user declines the confirmation, likewise; otherwise run the dispatch
loop from attempt index 0. -/
def send_bulk (env : BulkEnv) (input : List Str) (minDelay maxDelay : Nat)
    (confirm : Bool) (log : SentLog) (file : Option Json) : BulkResult :=
  let emails := collect_emails input
  if emails.isEmpty then ⟨log, file, 0, 0, [], [], [], false⟩
  else if !confirm then ⟨log, file, 0, 0, [], [], [], false⟩
  else send_bulk_go env minDelay maxDelay 0 emails log file

/-- Apply a list of (token, value) replacements sequentially, exactly as
`build_email`'s chained `.replace` calls do. -/
def applySubsts : List (Str × Str) → Str → Str
  | [], s => s
  | (t, v) :: rest, s => applySubsts rest (replace s t v)

/-- Interleave a list of chunks with a separator (used both to build a
template from tokens and to describe the rendered result from values). -/
def mkTemplate (sep : Str) : List Str → Str
  | [] => []
  | [t] => t
  | t :: t2 :: ts => t ++ (sep ++ mkTemplate sep (t2 :: ts))

/-- Well-formedness of a token list for sequential substitution over
`mkTemplate sep tokens`: every token starts with `'{'` and does not occur
in the part of the template that follows it. -/
def tokensOk (sep : Str) : List Str → Bool
  | [] => true
  | [t] => t.head? == some '\x7b'
  | t :: t2 :: ts =>
    (t.head? == some '\x7b') &&
    !(containsSubstr (sep ++ mkTemplate sep (t2 :: ts)) t) &&
    tokensOk sep (t2 :: ts)

/-- The nine substitution values `build_email` uses for a profile whose
optional links are `some l` and `some g`, in substitution order. -/
def profileValues (p : Profile) (l g : Str) : List Str :=
  [p.name, p.email, p.phone, p.title, p.summary,
   List.intercalate (str ", ") p.skills, Nat.toDigits 10 p.experience_years, l, g]

/-- A template carrying each recognized placeholder exactly once: the
subject uses `{{name}}` and `{{title}}` (the only tokens `build_email`
substitutes there), the body lists all nine tokens newline-separated. -/
def canonicalTemplate : EmailTemplate :=
  { subject := mkTemplate (str " - ") [tkName, tkTitle]
  , body := mkTemplate (str "\n") recognizedTokens }

/-- Pairs of (token, substitution value) for the body replacements of
`build_email`, in the order the source applies them, for a profile whose
optional links are present. -/
def bodyPairs (p : Profile) (l g : Str) : List (Str × Str) :=
  [(tkName, p.name), (tkEmail, p.email), (tkPhone, p.phone), (tkTitle, p.title),
   (tkSummary, p.summary), (tkSkills, List.intercalate (str ", ") p.skills),
   (tkExperience, Nat.toDigits 10 p.experience_years), (tkLinkedin, l), (tkGithub, g)]

/-- A small profile with every optional field present and brace-free
values, used to instantiate general statements on concrete data. -/
def profileW : Profile :=
  { name := str "Ana", email := str "ana@mail.pt", phone := str "+351 1", title := str "Dev"
  , summary := str "Sum", skills := [str "Rust", str "Go"], experience_years := 3
  , linkedin := some (str "ln/ana"), github := some (str "gh/ana") }

/-- Concrete configuration over `profileW` and the canonical template. -/
def cfgW : Config := ⟨profileW, ⟨str "smtp.x", 587⟩, canonicalTemplate⟩

/-- Configuration whose subject template consists of the single
recognized placeholder `{{email}}` (and an empty body), over a profile
with all optional fields present. -/
def cfgSubjCex : Config :=
  ⟨profileW, ⟨str "smtp.x", 587⟩, ⟨tkEmail, str ""⟩⟩

/-- Configuration whose profile name contains the literal token
`{{email}}` and whose body template is exactly `{{name}}`; the email
value is a parameter. -/
def cfgTricky (e : Str) : Config :=
  ⟨{ name := str "X\x7b\x7bemail\x7d\x7dY", email := e, phone := str "p", title := str "t"
   , summary := str "s", skills := [], experience_years := 3
   , linkedin := some (str "l"), github := some (str "g") }
  , ⟨str "h", 1⟩, ⟨str "", tkName⟩⟩

/-- Configuration whose body template carries the unrecognized token
`{{foo}}` next to a recognized one. -/
def cfgFoo : Config :=
  ⟨profileW, ⟨str "smtp.x", 587⟩, ⟨str "", str "\x7b\x7bfoo\x7d\x7d \x7b\x7bname\x7d\x7d"⟩⟩

/-- Concrete bulk environment whose transport always delivers and whose
log writes always succeed. -/
def envOk : BulkEnv :=
  { config := cfgW
  , transport := fun _ _ => none
  , now := fun i => str "2026-10-12T" ++ Nat.toDigits 10 i
  , rng := fun i => 7 + i
  , saveOk := fun _ => true }

/-- Concrete bulk environment whose transport fails on the first attempt
with a description and delivers afterwards; log writes succeed. -/
def envFail : BulkEnv :=
  { config := cfgW
  , transport := fun i _ => if i = 0 then some (str "mailbox full") else none
  , now := fun i => str "2026-10-12T" ++ Nat.toDigits 10 i
  , rng := fun i => 7 + i
  , saveOk := fun _ => true }

/-- Concrete bulk environment whose transport always delivers but whose
second log write (attempt index 1) fails. -/
def envAbort : BulkEnv :=
  { config := cfgW
  , transport := fun _ _ => none
  , now := fun i => str "2026-10-12T" ++ Nat.toDigits 10 i
  , rng := fun i => 7 + i
  , saveOk := fun i => i != 1 }

/-- Scanning an empty text yields an empty text, whatever the fuel. -/
theorem replaceF_nil (pat rep : Str) : ∀ f, replaceF pat rep f [] = []
  | 0 => rfl
  | _ + 1 => rfl

/-- The text after a replacement scan does not depend on the fuel, as
long as the fuel covers the text length (for a non-empty pattern). -/
theorem replaceF_fuel (pat rep : Str) (hp : pat ≠ []) :
    ∀ f g s, s.length ≤ f → s.length ≤ g →
      replaceF pat rep f s = replaceF pat rep g s := by
  have hplen : 0 < pat.length := List.length_pos.mpr hp
  intro f
  induction f with
  | zero =>
    intro g s hf _
    have hs : s = [] := List.length_eq_zero.mp (Nat.le_zero.mp hf)
    subst hs
    rw [replaceF_nil, replaceF_nil]
  | succ f ih =>
    intro g s hf hg
    cases s with
    | nil => rw [replaceF_nil, replaceF_nil]
    | cons c cs =>
      cases g with
      | zero => simp at hg
      | succ g =>
        cases hpre : pat.isPrefixOf (c :: cs) with
        | true =>
          have e1 : replaceF pat rep (f + 1) (c :: cs) =
              rep ++ replaceF pat rep f (List.drop pat.length (c :: cs)) := by
            simp [replaceF, hpre]
          have e2 : replaceF pat rep (g + 1) (c :: cs) =
              rep ++ replaceF pat rep g (List.drop pat.length (c :: cs)) := by
            simp [replaceF, hpre]
          rw [e1, e2]
          congr 1
          apply ih
          · rw [List.length_drop]
            simp only [List.length_cons] at hf ⊢
            omega
          · rw [List.length_drop]
            simp only [List.length_cons] at hg ⊢
            omega
        | false =>
          have e1 : replaceF pat rep (f + 1) (c :: cs) = c :: replaceF pat rep f cs := by
            simp [replaceF, hpre]
          have e2 : replaceF pat rep (g + 1) (c :: cs) = c :: replaceF pat rep g cs := by
            simp [replaceF, hpre]
          rw [e1, e2]
          congr 1
          apply ih
          · simp only [List.length_cons] at hf; omega
          · simp only [List.length_cons] at hg; omega

/-- A list is a `isPrefixOf`-prefix of itself followed by anything. -/
theorem isPrefixOf_self_append : ∀ (t b : Str), t.isPrefixOf (t ++ b) = true
  | [], b => by cases b <;> rfl
  | c :: t, b => by simp [List.isPrefixOf, isPrefixOf_self_append t b]

/-- A pattern starting with `p0` is not a prefix of a text starting with
a different character. -/
theorem isPrefixOf_cons_of_head_ne (p0 c : Char) (pr cs : Str) (h : c ≠ p0) :
    (p0 :: pr).isPrefixOf (c :: cs) = false := by
  have hb : (p0 == c) = false := beq_eq_false_iff_ne.mpr (Ne.symm h)
  simp [List.isPrefixOf, hb]

/-- The scan copies verbatim any leading text containing no character
equal to the pattern's head. -/
theorem replaceF_skip (p0 : Char) (pr rep : Str) :
    ∀ (a s : Str) (f : Nat), (∀ c ∈ a, c ≠ p0) →
      replaceF (p0 :: pr) rep (a.length + f) (a ++ s) = a ++ replaceF (p0 :: pr) rep f s := by
  intro a
  induction a with
  | nil => intro s f _; simp
  | cons c a ih =>
    intro s f h
    have hc : c ≠ p0 := h c (List.mem_cons_self c a)
    have hpre : (p0 :: pr).isPrefixOf (c :: (a ++ s)) = false :=
      isPrefixOf_cons_of_head_ne p0 c pr (a ++ s) hc
    have hlen : (c :: a).length + f = (a.length + f) + 1 := by
      simp only [List.length_cons]; omega
    rw [hlen, List.cons_append]
    have e1 : replaceF (p0 :: pr) rep ((a.length + f) + 1) (c :: (a ++ s)) =
        c :: replaceF (p0 :: pr) rep (a.length + f) (a ++ s) := by
      simp [replaceF, hpre]
    rw [e1, ih s f (fun x hx => h x (List.mem_cons_of_mem c hx))]
    simp

/-- `replace` skips a leading chunk free of the pattern's head character. -/
theorem replace_append_left (p0 : Char) (pr rep a s : Str) (h : ∀ c ∈ a, c ≠ p0) :
    replace (a ++ s) (p0 :: pr) rep = a ++ replace s (p0 :: pr) rep := by
  unfold replace
  rw [List.length_append]
  exact replaceF_skip p0 pr rep a s s.length h

/-- Scanning the empty text yields the empty text. -/
theorem replace_nil (pat rep : Str) : replace [] pat rep = [] := rfl

/-- `replace` consumes the pattern when the text starts with it. -/
theorem replace_self_append (p0 : Char) (pr rep b : Str) :
    replace ((p0 :: pr) ++ b) (p0 :: pr) rep = rep ++ replace b (p0 :: pr) rep := by
  have hpre : (p0 :: pr).isPrefixOf (p0 :: (pr ++ b)) = true := by
    rw [← List.cons_append]
    exact isPrefixOf_self_append (p0 :: pr) b
  have hdrop : List.drop (p0 :: pr).length (p0 :: (pr ++ b)) = b := by
    rw [← List.cons_append]
    exact List.drop_left (p0 :: pr) b
  unfold replace
  rw [show (p0 :: pr) ++ b = p0 :: (pr ++ b) from List.cons_append p0 pr b]
  rw [show (p0 :: (pr ++ b)).length = (pr.length + b.length) + 1 from by simp]
  have e1 : replaceF (p0 :: pr) rep ((pr.length + b.length) + 1) (p0 :: (pr ++ b)) =
      rep ++ replaceF (p0 :: pr) rep (pr.length + b.length)
        (List.drop (p0 :: pr).length (p0 :: (pr ++ b))) := by
    simp [replaceF, hpre]
  rw [e1, hdrop]
  congr 1
  exact replaceF_fuel (p0 :: pr) rep (by simp) _ _ b (by omega) (le_refl _)

/-- Replacing a pattern inside the pattern itself yields the replacement. -/
theorem replace_self (p0 : Char) (pr rep : Str) :
    replace (p0 :: pr) (p0 :: pr) rep = rep := by
  have h := replace_self_append p0 pr rep []
  rw [List.append_nil, replace_nil, List.append_nil] at h
  exact h

/-- A text without any occurrence of the pattern scans to itself. -/
theorem replaceF_of_not_contains (pat rep : Str) :
    ∀ (s : Str) (f : Nat), s.length ≤ f → containsSubstr s pat = false →
      replaceF pat rep f s = s := by
  intro s
  induction s with
  | nil => intro f _ _; exact replaceF_nil pat rep f
  | cons c cs ih =>
    intro f hf hc
    cases f with
    | zero => simp at hf
    | succ f =>
      rw [containsSubstr, Bool.or_eq_false_iff] at hc
      have e1 : replaceF pat rep (f + 1) (c :: cs) = c :: replaceF pat rep f cs := by
        simp [replaceF, hc.1]
      rw [e1, ih f (by simp only [List.length_cons] at hf; omega) hc.2]

/-- `replace` is the identity on texts not containing the pattern. -/
theorem replace_of_not_contains (s pat rep : Str) (h : containsSubstr s pat = false) :
    replace s pat rep = s :=
  replaceF_of_not_contains pat rep s s.length (le_refl _) h

/-- A pattern starting with `p0` does not occur in a text avoiding `p0`. -/
theorem not_contains_of_head_ne (p0 : Char) (pr : Str) :
    ∀ s : Str, (∀ c ∈ s, c ≠ p0) → containsSubstr s (p0 :: pr) = false := by
  intro s
  induction s with
  | nil => intro _; rfl
  | cons c cs ih =>
    intro h
    rw [containsSubstr, Bool.or_eq_false_iff]
    exact ⟨isPrefixOf_cons_of_head_ne p0 c pr cs (h c (List.mem_cons_self c cs)),
           ih (fun x hx => h x (List.mem_cons_of_mem c hx))⟩

/-- A pattern whose head is `'{'` does not occur in a brace-free text. -/
theorem not_contains_token (s t : Str) (hs : ∀ c ∈ s, c ≠ '\x7b')
    (ht : t.head? = some '\x7b') : containsSubstr s t = false := by
  cases t with
  | nil => simp at ht
  | cons c tl =>
    simp only [List.head?, Option.some.injEq] at ht
    subst ht
    exact not_contains_of_head_ne _ tl s hs

/-- A text occurs in itself followed by anything. -/
theorem contains_self_append (t w : Str) : containsSubstr (t ++ w) t = true := by
  cases t with
  | nil =>
    cases w with
    | nil => rfl
    | cons c cs => simp [containsSubstr, List.isPrefixOf]
  | cons c t =>
    have h := isPrefixOf_self_append (c :: t) w
    simp only [List.cons_append] at h ⊢
    simp [containsSubstr, h]

/-- Occurrence is preserved by prepending text. -/
theorem contains_append_of_contains (u s pat : Str) (h : containsSubstr s pat = true) :
    containsSubstr (u ++ s) pat = true := by
  induction u with
  | nil => simpa using h
  | cons c u ih => simp [containsSubstr, ih]

/-- A rendered interleaving of brace-free chunks with a brace-free
separator is brace-free. -/
theorem mkTemplate_braceFree (sep : Str) (hsep : ∀ c ∈ sep, c ≠ '\x7b') :
    ∀ vs : List Str, (∀ v ∈ vs, ∀ c ∈ v, c ≠ '\x7b') →
      ∀ c ∈ mkTemplate sep vs, c ≠ '\x7b' := by
  intro vs
  induction vs with
  | nil => intro _ c hc; simp [mkTemplate] at hc
  | cons v vs ih =>
    intro h c hc
    cases vs with
    | nil =>
      simp only [mkTemplate] at hc
      exact h v (by simp) c hc
    | cons v2 vs2 =>
      simp only [mkTemplate, List.mem_append] at hc
      rcases hc with hc | hc | hc
      · exact h v (by simp) c hc
      · exact hsep c hc
      · exact ih (fun x hx => h x (by simp [hx])) c hc

/-- Every chunk of an interleaving occurs in it as a substring. -/
theorem mkTemplate_contains_mem (sep : Str) :
    ∀ (vs : List Str) (v : Str), v ∈ vs →
      containsSubstr (mkTemplate sep vs) v = true := by
  intro vs
  induction vs with
  | nil => intro v hv; simp at hv
  | cons w vs ih =>
    intro v hv
    cases vs with
    | nil =>
      simp at hv
      subst hv
      have h := contains_self_append v []
      simpa [mkTemplate] using h
    | cons v2 vs2 =>
      rcases List.mem_cons.mp hv with rfl | hv2
      · simp only [mkTemplate]
        exact contains_self_append v _
      · simp only [mkTemplate]
        apply contains_append_of_contains
        apply contains_append_of_contains
        exact ih v hv2

/-- Sequentially substituting token-for-value pairs over a template whose
tokens each occur exactly where `mkTemplate` places them rewrites the
template of tokens into the interleaving of values, for any brace-free
prefix `A`, brace-free values and a brace-free separator.  This captures
`build_email`'s chain of `.replace` calls on such a template. -/
theorem applySubsts_mkTemplate (sep : Str) (hsep : ∀ c ∈ sep, c ≠ '\x7b') :
    ∀ (tvs : List (Str × Str)) (A : Str),
      (∀ c ∈ A, c ≠ '\x7b') →
      (∀ tv ∈ tvs, ∀ c ∈ tv.2, c ≠ '\x7b') →
      tokensOk sep (tvs.map Prod.fst) = true →
      applySubsts tvs (A ++ mkTemplate sep (tvs.map Prod.fst)) =
        A ++ mkTemplate sep (tvs.map Prod.snd) := by
  intro tvs
  induction tvs with
  | nil => intro A _ _ _; simp [applySubsts, mkTemplate]
  | cons tv rest ih =>
    intro A hA hvals htok
    obtain ⟨t, v⟩ := tv
    have hval : ∀ c ∈ v, c ≠ '\x7b' := hvals (t, v) (List.mem_cons_self _ _)
    cases rest with
    | nil =>
      have ht : t.head? = some '\x7b' := by
        simpa [tokensOk] using htok
      obtain ⟨tl, rfl⟩ : ∃ tl, t = '\x7b' :: tl := by
        cases t with
        | nil => simp at ht
        | cons c tl =>
          simp only [List.head?, Option.some.injEq] at ht
          exact ⟨tl, by rw [ht]⟩
      simp only [List.map, applySubsts, mkTemplate]
      rw [replace_append_left _ _ _ _ _ hA, replace_self]
    | cons tv2 rest2 =>
      obtain ⟨t2, v2⟩ := tv2
      have htok3 := htok
      simp only [List.map, tokensOk, Bool.and_eq_true, Bool.not_eq_true'] at htok3
      obtain ⟨⟨hthead, hnc⟩, htokrest⟩ := htok3
      have ht : t.head? = some '\x7b' := by
        simpa using hthead
      obtain ⟨tl, rfl⟩ : ∃ tl, t = '\x7b' :: tl := by
        cases t with
        | nil => simp at ht
        | cons c tl =>
          simp only [List.head?, Option.some.injEq] at ht
          exact ⟨tl, by rw [ht]⟩
      simp only [List.map, applySubsts, mkTemplate]
      rw [replace_append_left _ _ _ _ _ hA, replace_self_append,
          replace_of_not_contains _ _ _ hnc]
      have hA2 : ∀ c ∈ A ++ (v ++ sep), c ≠ '\x7b' := by
        intro c hc
        simp only [List.mem_append] at hc
        rcases hc with hc | hc | hc
        · exact hA c hc
        · exact hval c hc
        · exact hsep c hc
      have hvals2 : ∀ tv ∈ (t2, v2) :: rest2, ∀ c ∈ tv.2, c ≠ '\x7b' :=
        fun tv htv => hvals tv (List.mem_cons_of_mem _ htv)
      have harr : A ++ (v ++ (sep ++ mkTemplate sep (t2 :: List.map Prod.fst rest2))) =
          (A ++ (v ++ sep)) ++ mkTemplate sep (t2 :: List.map Prod.fst rest2) := by
        simp [List.append_assoc]
      have ihh := ih (A ++ (v ++ sep)) hA2 hvals2 htokrest
      simp only [List.map, applySubsts] at ihh
      rw [harr, ihh]
      simp [List.map, mkTemplate, List.append_assoc]

/-- A `gen_range` draw over a non-empty inclusive interval lies within
both bounds. -/
theorem gen_range_bounds (lo hi seed : Nat) (h : lo ≤ hi) :
    lo ≤ gen_range lo hi seed ∧ gen_range lo hi seed ≤ hi := by
  unfold gen_range
  have hpos : 0 < hi + 1 - lo := by omega
  have hm := Nat.mod_lt seed hpos
  omega

/-- Every address the collection loop keeps contains an `'@'`. -/
theorem collect_emails_all_at :
    ∀ input : List Str, ∀ e ∈ collect_emails input, e.contains '@' = true := by
  intro input
  induction input with
  | nil => intro e he; simp [collect_emails] at he
  | cons line rest ih =>
    intro e he
    simp only [collect_emails] at he
    cases hempty : line.isEmpty with
    | true => simp [hempty] at he
    | false =>
      cases hat : line.contains '@' with
      | true =>
        rw [hempty, hat] at he
        simp only [Bool.false_eq_true, if_false, if_true] at he
        rcases List.mem_cons.mp he with rfl | he2
        · exact hat
        · exact ih e he2
      | false =>
        rw [hempty, hat] at he
        simp only [Bool.false_eq_true, if_false] at he
        exact ih e he

/-- Deserialization undoes serialization on one record. -/
theorem decode_encode_record (r : SentRecord) : decodeRecord (encodeRecord r) = some r := by
  obtain ⟨e, t, s, err⟩ := r
  cases err <;> rfl

/-- Deserialization undoes serialization on a record list. -/
theorem decode_encode_records :
    ∀ rs : List SentRecord, decodeRecords (rs.map encodeRecord) = some rs := by
  intro rs
  induction rs with
  | nil => rfl
  | cons r rs ih => simp [List.map, decodeRecords, decode_encode_record r, ih]

/-- Deserialization undoes serialization on the whole log. -/
theorem decode_encode_log (log : SentLog) : decodeLog (encodeLog log) = some log := by
  obtain ⟨rs⟩ := log
  simp [encodeLog, decodeLog, decode_encode_records]

/-- `build_email` is the sequential substitution of the subject pairs
and of `bodyPairs` when both optional links are present. -/
theorem build_email_eq_applySubsts (cfg : Config) (l g : Str)
    (hl : cfg.profile.linkedin = some l) (hg : cfg.profile.github = some g) :
    build_email cfg =
      (applySubsts [(tkName, cfg.profile.name), (tkTitle, cfg.profile.title)]
         cfg.template.subject,
       applySubsts (bodyPairs cfg.profile l g) cfg.template.body) := by
  simp [build_email, applySubsts, bodyPairs, hl, hg]

/-- Unfolding of the dispatch loop on an empty recipient list. -/
theorem send_bulk_go_nil (env : BulkEnv) (mn mx i : Nat) (log : SentLog) (file : Option Json) :
    send_bulk_go env mn mx i [] log file = ⟨log, file, 0, 0, [], [], [], false⟩ := rfl

/-- Unfolding of the dispatch loop on one recipient when the log write
succeeds. -/
theorem send_bulk_go_cons_ok (env : BulkEnv) (mn mx i : Nat) (email : Str) (rest : List Str)
    (log : SentLog) (file : Option Json) (hs : env.saveOk i = true) :
    send_bulk_go env mn mx i (email :: rest) log file =
      ⟨(send_bulk_go env mn mx (i + 1) rest (append_record log (mkRecord env i email))
          (some (save_log (append_record log (mkRecord env i email))))).log,
       (send_bulk_go env mn mx (i + 1) rest (append_record log (mkRecord env i email))
          (some (save_log (append_record log (mkRecord env i email))))).file,
       (if (env.transport i email).isNone then 1 else 0) +
         (send_bulk_go env mn mx (i + 1) rest (append_record log (mkRecord env i email))
            (some (save_log (append_record log (mkRecord env i email))))).success,
       (if (env.transport i email).isNone then 0 else 1) +
         (send_bulk_go env mn mx (i + 1) rest (append_record log (mkRecord env i email))
            (some (save_log (append_record log (mkRecord env i email))))).failed,
       (if rest.isEmpty then [] else [gen_range mn mx (env.rng i)]) ++
         (send_bulk_go env mn mx (i + 1) rest (append_record log (mkRecord env i email))
            (some (save_log (append_record log (mkRecord env i email))))).delays,
       email :: (send_bulk_go env mn mx (i + 1) rest (append_record log (mkRecord env i email))
            (some (save_log (append_record log (mkRecord env i email))))).attempted,
       build_email env.config ::
         (send_bulk_go env mn mx (i + 1) rest (append_record log (mkRecord env i email))
            (some (save_log (append_record log (mkRecord env i email))))).messages,
       (send_bulk_go env mn mx (i + 1) rest (append_record log (mkRecord env i email))
          (some (save_log (append_record log (mkRecord env i email))))).aborted⟩ := by
  simp [send_bulk_go, hs, mkRecord]

/-- Unfolding of the dispatch loop on one recipient when the log write
fails: the loop aborts with the in-memory record kept. -/
theorem send_bulk_go_cons_fail (env : BulkEnv) (mn mx i : Nat) (email : Str)
    (rest : List Str) (log : SentLog) (file : Option Json) (hs : env.saveOk i = false) :
    send_bulk_go env mn mx i (email :: rest) log file =
      ⟨append_record log (mkRecord env i email), file, 0, 0, [], [email],
       [build_email env.config], true⟩ := by
  simp [send_bulk_go, hs, mkRecord]

/-- C3 (confirmed): in a dispatch loop over `n` recipients with
`min ≤ max` and every log write succeeding, a delay is invoked after
every attempt except the last — `n - 1` delays in total (zero for a
single recipient) — and every invoked delay lies in the closed interval
`[min, max]` (a fixed value when `min = max`). -/
theorem bulk_delay_schedule (env : BulkEnv) (mn mx : Nat) :
    ∀ (emails : List Str) (i : Nat) (log : SentLog) (file : Option Json),
      mn ≤ mx → (∀ k, env.saveOk k = true) →
      (send_bulk_go env mn mx i emails log file).delays.length = emails.length - 1 ∧
      ∀ d ∈ (send_bulk_go env mn mx i emails log file).delays, mn ≤ d ∧ d ≤ mx := by
  intro emails
  induction emails with
  | nil =>
    intro i log file _ _
    simp [send_bulk_go_nil]
  | cons e rest ih =>
    intro i log file hmn hsave
    obtain ⟨ih1, ih2⟩ := ih (i + 1) (append_record log (mkRecord env i e))
      (some (save_log (append_record log (mkRecord env i e)))) hmn hsave
    rw [send_bulk_go_cons_ok env mn mx i e rest log file (hsave i)]
    cases rest with
    | nil =>
      rw [send_bulk_go_nil] at ih1 ih2 ⊢
      simp
    | cons e2 rest2 =>
      constructor
      · simp only [List.isEmpty_cons, Bool.false_eq_true, if_false, List.singleton_append,
          List.length_cons]
        rw [List.length_cons] at ih1
        simp [ih1]
      · intro d hd
        simp only [List.isEmpty_cons, Bool.false_eq_true, if_false,
          List.singleton_append] at hd
        rcases List.mem_cons.mp hd with rfl | hd2
        · exact gen_range_bounds mn mx (env.rng i) hmn
        · exact ih2 d hd2

/-- C3 witness: a concrete three-recipient run with delays in `[2, 5]`
invokes exactly two delays, both within bounds. -/
theorem bulk_delay_schedule_witness :
    (2 ≤ 5 ∧ (∀ k, envOk.saveOk k = true)) ∧
    (send_bulk_go envOk 2 5 0 [str "a@b", str "c@d", str "e@f"] ⟨[]⟩ none).delays.length
      = [str "a@b", str "c@d", str "e@f"].length - 1 ∧
    ∀ d ∈ (send_bulk_go envOk 2 5 0 [str "a@b", str "c@d", str "e@f"] ⟨[]⟩ none).delays,
      2 ≤ d ∧ d ≤ 5 :=
  ⟨⟨by omega, fun _ => rfl⟩,
   bulk_delay_schedule envOk 2 5 [str "a@b", str "c@d", str "e@f"] 0 ⟨[]⟩ none
     (by omega) (fun _ => rfl)⟩

/-- C4 (confirmed): when every log write succeeds, a per-recipient
delivery failure never aborts the loop and is never retried: every
recipient is attempted exactly once in order, for each attempt a record
with the recipient, timestamp, success flag and error description is
appended to the log, and the success/failure tallies count exactly the
successful/failed records — for every transport behaviour. -/
theorem bulk_delivery_failure_nonfatal (env : BulkEnv) (mn mx : Nat) :
    ∀ (emails : List Str) (i : Nat) (log : SentLog) (file : Option Json),
      (∀ k, env.saveOk k = true) →
      (send_bulk_go env mn mx i emails log file).aborted = false ∧
      (send_bulk_go env mn mx i emails log file).attempted = emails ∧
      (send_bulk_go env mn mx i emails log file).log.records
        = log.records ++ recordsFrom env i emails ∧
      (send_bulk_go env mn mx i emails log file).success
        = (recordsFrom env i emails).countP (fun r => r.success) ∧
      (send_bulk_go env mn mx i emails log file).failed
        = (recordsFrom env i emails).countP (fun r => !r.success) := by
  intro emails
  induction emails with
  | nil =>
    intro i log file _
    simp [send_bulk_go_nil, recordsFrom]
  | cons e rest ih =>
    intro i log file hsave
    obtain ⟨ih1, ih2, ih3, ih4, ih5⟩ := ih (i + 1) (append_record log (mkRecord env i e))
      (some (save_log (append_record log (mkRecord env i e)))) hsave
    rw [send_bulk_go_cons_ok env mn mx i e rest log file (hsave i)]
    refine ⟨ih1, by simp [ih2], ?_, ?_, ?_⟩
    · show (send_bulk_go env mn mx (i + 1) rest _ _).log.records = _
      rw [ih3]
      simp [append_record, recordsFrom, List.append_assoc]
    · show (if (env.transport i e).isNone then 1 else 0) + _ = _
      rw [ih4, recordsFrom, List.countP_cons]
      simp only [mkRecord]
      exact Nat.add_comm _ _
    · show (if (env.transport i e).isNone then 0 else 1) + _ = _
      rw [ih5, recordsFrom, List.countP_cons]
      simp only [mkRecord]
      rw [Nat.add_comm]
      congr 1
      by_cases hb : (env.transport i e).isNone = true
      · simp [hb]
      · rw [Bool.not_eq_true] at hb
        simp [hb]

/-- C4 witness: a concrete run whose transport fails on the first
recipient and delivers to the second: no abort, both attempted in order,
both records logged, one success and one failure counted. -/
theorem bulk_delivery_failure_nonfatal_witness :
    (∀ k, envFail.saveOk k = true) ∧
    (send_bulk_go envFail 0 0 0 [str "a@b", str "c@d"] ⟨[]⟩ none).aborted = false ∧
    (send_bulk_go envFail 0 0 0 [str "a@b", str "c@d"] ⟨[]⟩ none).attempted
      = [str "a@b", str "c@d"] ∧
    (send_bulk_go envFail 0 0 0 [str "a@b", str "c@d"] ⟨[]⟩ none).log.records
      = (⟨[]⟩ : SentLog).records ++ recordsFrom envFail 0 [str "a@b", str "c@d"] ∧
    (send_bulk_go envFail 0 0 0 [str "a@b", str "c@d"] ⟨[]⟩ none).success
      = (recordsFrom envFail 0 [str "a@b", str "c@d"]).countP (fun r => r.success) ∧
    (send_bulk_go envFail 0 0 0 [str "a@b", str "c@d"] ⟨[]⟩ none).failed
      = (recordsFrom envFail 0 [str "a@b", str "c@d"]).countP (fun r => !r.success) :=
  ⟨fun _ => rfl,
   bulk_delivery_failure_nonfatal envFail 0 0 [str "a@b", str "c@d"] 0 ⟨[]⟩ none
     (fun _ => rfl)⟩

/-- C5 (confirmed): if the log write after attempt `j` fails (all earlier
writes succeeding), the `?` on `save_log` propagates the error and aborts
the whole loop: the run reports the abort, exactly the first `j + 1`
recipients were attempted (the send that triggered the failed write
included), their records are in the in-memory log, and only `j` delays
were invoked — no further recipients are attempted. -/
theorem bulk_storage_failure_aborts (env : BulkEnv) (mn mx : Nat) :
    ∀ (emails : List Str) (i j : Nat) (log : SentLog) (file : Option Json),
      j < emails.length →
      (∀ k, k < j → env.saveOk (i + k) = true) →
      env.saveOk (i + j) = false →
      (send_bulk_go env mn mx i emails log file).aborted = true ∧
      (send_bulk_go env mn mx i emails log file).attempted = emails.take (j + 1) ∧
      (send_bulk_go env mn mx i emails log file).log.records
        = log.records ++ recordsFrom env i (emails.take (j + 1)) ∧
      (send_bulk_go env mn mx i emails log file).delays.length = j := by
  intro emails
  induction emails with
  | nil =>
    intro i j log file hj _ _
    simp at hj
  | cons e rest ih =>
    intro i j log file hj hok hfail
    cases j with
    | zero =>
      have hs : env.saveOk i = false := by simpa using hfail
      rw [send_bulk_go_cons_fail env mn mx i e rest log file hs]
      refine ⟨rfl, rfl, ?_, rfl⟩
      simp [append_record, recordsFrom, List.take]
    | succ j =>
      have hs : env.saveOk i = true := by
        have h := hok 0 (by omega)
        simpa using h
      rw [send_bulk_go_cons_ok env mn mx i e rest log file hs]
      have hj2 : j < rest.length := by
        simp only [List.length_cons] at hj
        omega
      have hok2 : ∀ k, k < j → env.saveOk ((i + 1) + k) = true := by
        intro k hk
        have h := hok (k + 1) (by omega)
        rw [show (i + 1) + k = i + (k + 1) from by omega]
        exact h
      have hfail2 : env.saveOk ((i + 1) + j) = false := by
        rw [show (i + 1) + j = i + (j + 1) from by omega]
        exact hfail
      obtain ⟨ih1, ih2, ih3, ih4⟩ := ih (i + 1) j (append_record log (mkRecord env i e))
        (some (save_log (append_record log (mkRecord env i e)))) hj2 hok2 hfail2
      cases rest with
      | nil => simp at hj2
      | cons e2 rest2 =>
        refine ⟨ih1, ?_, ?_, ?_⟩
        · show e :: _ = _
          rw [ih2]
          simp [List.take]
        · show (send_bulk_go env mn mx (i + 1) (e2 :: rest2) _ _).log.records = _
          rw [ih3]
          simp [append_record, recordsFrom, List.take, List.append_assoc]
        · show ((if (e2 :: rest2).isEmpty then [] else [gen_range mn mx (env.rng i)]) ++ _).length = _
          rw [List.length_append, ih4]
          simp
          omega

/-- C5 witness: in a concrete three-recipient run whose second log write
fails, the loop aborts after the second attempt: two recipients
attempted, two records in memory, one delay invoked. -/
theorem bulk_storage_failure_aborts_witness :
    (1 < [str "a@b", str "c@d", str "e@f"].length ∧
     (∀ k, k < 1 → envAbort.saveOk (0 + k) = true) ∧
     envAbort.saveOk (0 + 1) = false) ∧
    (send_bulk_go envAbort 2 5 0 [str "a@b", str "c@d", str "e@f"] ⟨[]⟩ none).aborted = true ∧
    (send_bulk_go envAbort 2 5 0 [str "a@b", str "c@d", str "e@f"] ⟨[]⟩ none).attempted
      = [str "a@b", str "c@d", str "e@f"].take (1 + 1) ∧
    (send_bulk_go envAbort 2 5 0 [str "a@b", str "c@d", str "e@f"] ⟨[]⟩ none).log.records
      = (⟨[]⟩ : SentLog).records
          ++ recordsFrom envAbort 0 ([str "a@b", str "c@d", str "e@f"].take (1 + 1)) ∧
    (send_bulk_go envAbort 2 5 0 [str "a@b", str "c@d", str "e@f"] ⟨[]⟩ none).delays.length = 1 :=
  ⟨⟨by decide, fun k hk => by interval_cases k; rfl, rfl⟩,
   bulk_storage_failure_aborts envAbort 2 5 [str "a@b", str "c@d", str "e@f"] 0 1 ⟨[]⟩ none
     (by decide) (fun k hk => by interval_cases k; rfl) rfl⟩

/-- C6 (confirmed): a bulk send whose collected recipient list is empty
returns immediately as a successful no-op: no abort flag, zero attempts,
zero records added, zero tallies, no delays and no write to the log
file. -/
theorem bulk_empty_recipients_noop (env : BulkEnv) (input : List Str) (mn mx : Nat)
    (confirm : Bool) (log : SentLog) (file : Option Json)
    (h : collect_emails input = []) :
    send_bulk env input mn mx confirm log file = ⟨log, file, 0, 0, [], [], [], false⟩ := by
  simp [send_bulk, h]

/-- C6 witness: the empty first input line terminates collection with no
recipients, and the bulk send is a successful no-op. -/
theorem bulk_empty_recipients_noop_witness :
    collect_emails [([] : Str)] = [] ∧
    send_bulk envOk [([] : Str)] 30 60 true ⟨[]⟩ none = ⟨⟨[]⟩, none, 0, 0, [], [], [], false⟩ :=
  ⟨rfl, bulk_empty_recipients_noop envOk [([] : Str)] 30 60 true ⟨[]⟩ none rfl⟩

/-- C7 (confirmed): appending two well-formed records to any log (each
append persisting the whole serialized log) and loading the persisted
document yields exactly the appended log: the trailing two records are
`r1, r2` in order with identical fields, and the prior records are
preserved unchanged in their original order. -/
theorem delivery_log_roundtrip (log : SentLog) (r1 r2 : SentRecord) :
    load_log (some (save_log (append_record (append_record log r1) r2))) =
      append_record (append_record log r1) r2 ∧
    (append_record (append_record log r1) r2).records = log.records ++ [r1, r2] ∧
    (append_record (append_record log r1) r2).records.drop log.records.length = [r1, r2] ∧
    (append_record (append_record log r1) r2).records.take log.records.length = log.records := by
  have hrecs : (append_record (append_record log r1) r2).records = log.records ++ [r1, r2] := by
    simp [append_record]
  refine ⟨?_, hrecs, ?_, ?_⟩
  · simp [load_log, save_log, decode_encode_log]
  · rw [hrecs]
    exact List.drop_left _ _
  · rw [hrecs]
    exact List.take_left _ _

/-- C8 (confirmed): loading the delivery log is total and never fails
the caller: an absent file and an unparseable document both load as the
empty log. -/
theorem load_log_total_degrades :
    load_log none = ⟨[]⟩ ∧ ∀ j : Json, decodeLog j = none → load_log (some j) = ⟨[]⟩ := by
  refine ⟨rfl, ?_⟩
  intro j hj
  simp [load_log, hj]

/-- C8 witness: the JSON document `null` is unparseable as a log and
loads as the empty log. -/
theorem load_log_total_degrades_witness :
    decodeLog Json.null = none ∧ load_log (some Json.null) = ⟨[]⟩ :=
  ⟨rfl, load_log_total_degrades.2 Json.null rfl⟩

/-- C9 (confirmed): within one run the rendered message does not vary by
recipient: every message used by an attempt equals `build_email` of the
run's configuration, and (for a completed run) rendering afresh before
each send — as `send_email` does — produces the same message list as
rendering once up front and reusing it, because rendering depends only on
the immutable configuration. -/
theorem rendered_message_constant (env : BulkEnv) (mn mx : Nat) :
    ∀ (emails : List Str) (i : Nat) (log : SentLog) (file : Option Json),
      (∀ k, env.saveOk k = true) →
      (∀ m ∈ (send_bulk_go env mn mx i emails log file).messages,
          m = build_email env.config) ∧
      (send_bulk_go env mn mx i emails log file).messages
        = emails.map (send_email_rendered env.config) ∧
      (send_bulk_go env mn mx i emails log file).messages
        = emails.map (fun _ => build_email env.config) := by
  intro emails
  induction emails with
  | nil =>
    intro i log file _
    simp [send_bulk_go_nil]
  | cons e rest ih =>
    intro i log file hsave
    obtain ⟨ih1, ih2, ih3⟩ := ih (i + 1) (append_record log (mkRecord env i e))
      (some (save_log (append_record log (mkRecord env i e)))) hsave
    rw [send_bulk_go_cons_ok env mn mx i e rest log file (hsave i)]
    refine ⟨?_, ?_, ?_⟩
    · intro m hm
      rcases List.mem_cons.mp hm with rfl | hm2
      · rfl
      · exact ih1 m hm2
    · show build_email env.config :: _ = _
      rw [ih2]
      rfl
    · show build_email env.config :: _ = _
      rw [ih3]
      simp [List.map]

/-- C9 witness: in a concrete two-recipient run, every per-attempt
message is the one rendering of the configuration, and per-send
re-rendering agrees with rendering once up front. -/
theorem rendered_message_constant_witness :
    (∀ k, envOk.saveOk k = true) ∧
    (∀ m ∈ (send_bulk_go envOk 0 0 0 [str "a@b", str "c@d"] ⟨[]⟩ none).messages,
        m = build_email envOk.config) ∧
    (send_bulk_go envOk 0 0 0 [str "a@b", str "c@d"] ⟨[]⟩ none).messages
      = [str "a@b", str "c@d"].map (send_email_rendered envOk.config) ∧
    (send_bulk_go envOk 0 0 0 [str "a@b", str "c@d"] ⟨[]⟩ none).messages
      = [str "a@b", str "c@d"].map (fun _ => build_email envOk.config) :=
  ⟨fun _ => rfl,
   rendered_message_constant envOk 0 0 [str "a@b", str "c@d"] 0 ⟨[]⟩ none (fun _ => rfl)⟩

/-- C10 (confirmed): during collection an entered non-empty line without
`'@'` is discarded, an empty line terminates collection, every collected
address contains `'@'`, and consequently every record a bulk run adds to
the log (beyond the records already present) has a recipient containing
`'@'`. -/
theorem bulk_recipients_contain_at (env : BulkEnv) (input : List Str) (mn mx : Nat)
    (confirm : Bool) (log : SentLog) (file : Option Json) :
    (∀ (line : Str) (rest : List Str), line ≠ [] → line.contains '@' = false →
        collect_emails (line :: rest) = collect_emails rest) ∧
    (∀ rest : List Str, collect_emails ([] :: rest) = []) ∧
    (∀ e ∈ collect_emails input, e.contains '@' = true) ∧
    (∀ r ∈ (send_bulk env input mn mx confirm log file).log.records,
        r ∈ log.records ∨ r.email.contains '@' = true) := by
  have hmem : ∀ (emails : List Str) (i : Nat) (log2 : SentLog) (file2 : Option Json)
      (r : SentRecord), r ∈ (send_bulk_go env mn mx i emails log2 file2).log.records →
      r ∈ log2.records ∨ r.email ∈ emails := by
    intro emails
    induction emails with
    | nil =>
      intro i log2 file2 r hr
      rw [send_bulk_go_nil] at hr
      exact Or.inl hr
    | cons e rest ih =>
      intro i log2 file2 r hr
      cases hs : env.saveOk i with
      | true =>
        rw [send_bulk_go_cons_ok env mn mx i e rest log2 file2 hs] at hr
        rcases ih (i + 1) _ _ r hr with h | h
        · simp only [append_record, List.mem_append, List.mem_singleton] at h
          rcases h with h | h
          · exact Or.inl h
          · subst h
            right
            simp [mkRecord]
        · right
          simp [h]
      | false =>
        rw [send_bulk_go_cons_fail env mn mx i e rest log2 file2 hs] at hr
        simp only [append_record, List.mem_append, List.mem_singleton] at hr
        rcases hr with h | h
        · exact Or.inl h
        · subst h
          right
          simp [mkRecord]
  refine ⟨?_, ?_, collect_emails_all_at input, ?_⟩
  · intro line rest hne hat
    have hempty : line.isEmpty = false := by
      cases line with
      | nil => simp at hne
      | cons c cs => rfl
    show (if line.isEmpty then [] else
        if line.contains '@' then line :: collect_emails rest else collect_emails rest)
      = collect_emails rest
    rw [hempty, hat]
    simp
  · intro rest
    simp [collect_emails]
  · intro r hr
    simp only [send_bulk] at hr
    cases hcoll : (collect_emails input).isEmpty with
    | true =>
      rw [hcoll] at hr
      simp at hr
      exact Or.inl hr
    | false =>
      rw [hcoll] at hr
      cases confirm with
      | false =>
        simp at hr
        exact Or.inl hr
      | true =>
        simp only [Bool.not_true, Bool.false_eq_true, if_false] at hr
        rcases hmem (collect_emails input) 0 log file r hr with h | h
        · exact Or.inl h
        · exact Or.inr (collect_emails_all_at input r.email h)

/-- C10 witness: the line `x` (no `'@'`) is discarded, an empty line
terminates collection, the collected address `a@b` contains `'@'`, and
the record a concrete run appends has a recipient containing `'@'`. -/
theorem bulk_recipients_contain_at_witness :
    ((str "x" ≠ [] ∧ (str "x").contains '@' = false) ∧
      collect_emails [str "x"] = collect_emails []) ∧
    collect_emails ([] :: [str "q@w"]) = [] ∧
    (str "a@b" ∈ collect_emails [str "a@b"] ∧ (str "a@b").contains '@' = true) ∧
    (mkRecord envOk 0 (str "a@b")
        ∈ (send_bulk envOk [str "a@b"] 0 0 true ⟨[]⟩ none).log.records ∧
      (mkRecord envOk 0 (str "a@b") ∈ (⟨[]⟩ : SentLog).records ∨
        (mkRecord envOk 0 (str "a@b")).email.contains '@' = true)) :=
  ⟨⟨⟨by decide, by decide⟩,
    (bulk_recipients_contain_at envOk [str "a@b"] 0 0 true ⟨[]⟩ none).1
      (str "x") [] (by decide) (by decide)⟩,
   (bulk_recipients_contain_at envOk [str "a@b"] 0 0 true ⟨[]⟩ none).2.1 [str "q@w"],
   ⟨by decide,
    (bulk_recipients_contain_at envOk [str "a@b"] 0 0 true ⟨[]⟩ none).2.2.1
      (str "a@b") (by decide)⟩,
   ⟨by decide,
    (bulk_recipients_contain_at envOk [str "a@b"] 0 0 true ⟨[]⟩ none).2.2.2
      (mkRecord envOk 0 (str "a@b")) (by decide)⟩⟩

/-- C1 (corrected): `build_email` substitutes only the name and title
tokens in the subject; all nine recognized placeholders are substituted
in the body.  For the canonical template carrying each placeholder once
and any profile with both optional links present whose substitution
values contain no brace character, the result is exactly the values
spliced into the template: every value occurs literally, no recognized
placeholder token remains, and an unrecognized token such as the foo
token is left verbatim. -/
theorem build_email_canonical_substitution (p : Profile) (s : SmtpConfig) (l g : Str)
    (hl : p.linkedin = some l) (hg : p.github = some g)
    (hv : ∀ v ∈ profileValues p l g, ∀ c ∈ v, c ≠ '\x7b') :
    build_email ⟨p, s, canonicalTemplate⟩ =
      (mkTemplate (str " - ") [p.name, p.title],
       mkTemplate (str "\n") (profileValues p l g)) ∧
    (∀ v ∈ [p.name, p.title],
        containsSubstr (mkTemplate (str " - ") [p.name, p.title]) v = true) ∧
    (∀ v ∈ profileValues p l g,
        containsSubstr (mkTemplate (str "\n") (profileValues p l g)) v = true) ∧
    (∀ t ∈ recognizedTokens,
        containsSubstr (mkTemplate (str " - ") [p.name, p.title]) t = false ∧
        containsSubstr (mkTemplate (str "\n") (profileValues p l g)) t = false) ∧
    build_email cfgFoo = (str "", str "\x7b\x7bfoo\x7d\x7d Ana") := by
  have hsep1 : ∀ c ∈ str " - ", c ≠ '\x7b' := by decide
  have hsep2 : ∀ c ∈ str "\n", c ≠ '\x7b' := by decide
  have hvsubj : ∀ tv ∈ [(tkName, p.name), (tkTitle, p.title)], ∀ c ∈ tv.2, c ≠ '\x7b' := by
    intro tv htv
    rcases List.mem_cons.mp htv with rfl | htv
    · exact hv p.name (by simp [profileValues])
    rcases List.mem_cons.mp htv with rfl | htv
    · exact hv p.title (by simp [profileValues])
    · simp at htv
  have hvbody : ∀ tv ∈ bodyPairs p l g, ∀ c ∈ tv.2, c ≠ '\x7b' := by
    intro tv htv
    simp only [bodyPairs, List.mem_cons] at htv
    rcases htv with rfl | rfl | rfl | rfl | rfl | rfl | rfl | rfl | rfl | htv
    · exact hv p.name (by simp [profileValues])
    · exact hv p.email (by simp [profileValues])
    · exact hv p.phone (by simp [profileValues])
    · exact hv p.title (by simp [profileValues])
    · exact hv p.summary (by simp [profileValues])
    · exact hv _ (by simp [profileValues])
    · exact hv _ (by simp [profileValues])
    · exact hv l (by simp [profileValues])
    · exact hv g (by simp [profileValues])
    · simp at htv
  have hsubj : applySubsts [(tkName, p.name), (tkTitle, p.title)] canonicalTemplate.subject
      = mkTemplate (str " - ") [p.name, p.title] :=
    applySubsts_mkTemplate (str " - ") hsep1 [(tkName, p.name), (tkTitle, p.title)] []
      (by simp) hvsubj (by show tokensOk (str " - ") [tkName, tkTitle] = true; decide)
  have hbody : applySubsts (bodyPairs p l g) canonicalTemplate.body
      = mkTemplate (str "\n") (profileValues p l g) :=
    applySubsts_mkTemplate (str "\n") hsep2 (bodyPairs p l g) []
      (by simp) hvbody (by show tokensOk (str "\n") recognizedTokens = true; decide)
  have hmain : build_email ⟨p, s, canonicalTemplate⟩ =
      (mkTemplate (str " - ") [p.name, p.title],
       mkTemplate (str "\n") (profileValues p l g)) := by
    rw [build_email_eq_applySubsts ⟨p, s, canonicalTemplate⟩ l g hl hg]
    show (applySubsts [(tkName, p.name), (tkTitle, p.title)] canonicalTemplate.subject,
          applySubsts (bodyPairs p l g) canonicalTemplate.body) = _
    rw [hsubj, hbody]
  have hbfs : ∀ c ∈ mkTemplate (str " - ") [p.name, p.title], c ≠ '\x7b' := by
    apply mkTemplate_braceFree _ hsep1
    intro v hv2 c hc
    rcases List.mem_cons.mp hv2 with rfl | hv2
    · exact hv p.name (by simp [profileValues]) c hc
    rcases List.mem_cons.mp hv2 with rfl | hv2
    · exact hv p.title (by simp [profileValues]) c hc
    · simp at hv2
  have hbfb : ∀ c ∈ mkTemplate (str "\n") (profileValues p l g), c ≠ '\x7b' :=
    mkTemplate_braceFree _ hsep2 _ hv
  refine ⟨hmain, ?_, ?_, ?_, by decide⟩
  · intro v hv2
    exact mkTemplate_contains_mem (str " - ") [p.name, p.title] v hv2
  · intro v hv2
    exact mkTemplate_contains_mem (str "\n") (profileValues p l g) v hv2
  · intro t ht
    have hthead : t.head? = some '\x7b' := by
      simp only [recognizedTokens, List.mem_cons, List.not_mem_nil, or_false] at ht
      rcases ht with rfl | rfl | rfl | rfl | rfl | rfl | rfl | rfl | rfl <;> rfl
    exact ⟨not_contains_token _ t hbfs hthead, not_contains_token _ t hbfb hthead⟩

/-- C1 witness: the canonical substitution theorem instantiated at a
concrete profile with all optional fields present. -/
theorem build_email_canonical_substitution_witness :
    (profileW.linkedin = some (str "ln/ana") ∧ profileW.github = some (str "gh/ana") ∧
     (∀ v ∈ profileValues profileW (str "ln/ana") (str "gh/ana"), ∀ c ∈ v, c ≠ '\x7b')) ∧
    build_email ⟨profileW, ⟨str "smtp.x", 587⟩, canonicalTemplate⟩ =
      (mkTemplate (str " - ") [profileW.name, profileW.title],
       mkTemplate (str "\n") (profileValues profileW (str "ln/ana") (str "gh/ana"))) ∧
    (∀ v ∈ [profileW.name, profileW.title],
        containsSubstr (mkTemplate (str " - ") [profileW.name, profileW.title]) v = true) ∧
    (∀ v ∈ profileValues profileW (str "ln/ana") (str "gh/ana"),
        containsSubstr
          (mkTemplate (str "\n") (profileValues profileW (str "ln/ana") (str "gh/ana"))) v
          = true) ∧
    (∀ t ∈ recognizedTokens,
        containsSubstr (mkTemplate (str " - ") [profileW.name, profileW.title]) t = false ∧
        containsSubstr
          (mkTemplate (str "\n") (profileValues profileW (str "ln/ana") (str "gh/ana"))) t
          = false) ∧
    build_email cfgFoo = (str "", str "\x7b\x7bfoo\x7d\x7d Ana") :=
  ⟨⟨rfl, rfl, by decide⟩,
   build_email_canonical_substitution profileW ⟨str "smtp.x", 587⟩
     (str "ln/ana") (str "gh/ana") rfl rfl (by decide)⟩

/-- C1 counterexample: for a subject template consisting of the single
recognized token for the email (profile optional fields all present),
the returned subject keeps the token unsubstituted and does not contain
the profile's email value: the subject does not substitute every
recognized placeholder. -/
theorem build_email_subject_counterexample :
    (build_email cfgSubjCex).1 = tkEmail ∧
    containsSubstr (build_email cfgSubjCex).1 tkEmail = true ∧
    containsSubstr (build_email cfgSubjCex).1 cfgSubjCex.profile.email = false := by
  decide

/-- C2 (corrected): substitution is sequential in the fixed source order
(name, email, phone, title, summary, skills, experience years, linkedin,
github) and values substituted early are re-scanned by the later
replacements, so profile data is not opaque: for any brace-free email
value, a profile whose name contains the literal email token renders the
body template consisting of the name token to the name with that token
replaced by the email value — not emitted verbatim. -/
theorem build_email_resubstitution (e : Str) (he : ∀ c ∈ e, c ≠ '\x7b') :
    (build_email (cfgTricky e)).2 = str "X" ++ (e ++ str "Y") := by
  have hX : ∀ c ∈ str "X", c ≠ '\x7b' := by decide
  have hXeY : ∀ c ∈ str "X" ++ (e ++ str "Y"), c ≠ '\x7b' := by
    intro c hc
    rcases List.mem_append.mp hc with hc | hc
    · exact hX c hc
    rcases List.mem_append.mp hc with hc | hc
    · exact he c hc
    · have hY : str "Y" = ['Y'] := rfl
      rw [hY] at hc
      simp at hc
      subst hc
      decide
  have h1 : replace tkName tkName (str "X\x7b\x7bemail\x7d\x7dY")
      = str "X\x7b\x7bemail\x7d\x7dY" := by decide
  have hdec : str "X\x7b\x7bemail\x7d\x7dY" = str "X" ++ (tkEmail ++ str "Y") := by decide
  have htkE : tkEmail = '\x7b' :: str "\x7bemail\x7d\x7d" := rfl
  have h2 : replace (str "X\x7b\x7bemail\x7d\x7dY") tkEmail e = str "X" ++ (e ++ str "Y") := by
    rw [hdec, htkE]
    rw [replace_append_left _ _ _ _ _ hX, replace_self_append,
        replace_of_not_contains _ _ _ (by decide)]
  have hid : ∀ t : Str, t.head? = some '\x7b' →
      ∀ v : Str, replace (str "X" ++ (e ++ str "Y")) t v = str "X" ++ (e ++ str "Y") :=
    fun t ht v => replace_of_not_contains _ t v (not_contains_token _ t hXeY ht)
  show (build_email (cfgTricky e)).2 = _
  simp only [build_email, cfgTricky, Option.getD]
  rw [h1, h2, hid tkPhone rfl _, hid tkTitle rfl _, hid tkSummary rfl _, hid tkSkills rfl _,
      hid tkExperience rfl _, hid tkLinkedin rfl _, hid tkGithub rfl _]

/-- C2 witness: the re-substitution theorem instantiated at the concrete
email value `E`. -/
theorem build_email_resubstitution_witness :
    (∀ c ∈ str "E", c ≠ '\x7b') ∧
    (build_email (cfgTricky (str "E"))).2 = str "X" ++ (str "E" ++ str "Y") :=
  ⟨by decide, build_email_resubstitution (str "E") (by decide)⟩

/-- C2 counterexample: with profile name `X` followed by the email token
and `Y`, email value `E` and body template the name token, the rendered
body is `XEY` — the email token introduced by the name substitution was
replaced, not emitted verbatim as the claim states. -/
theorem build_email_opacity_counterexample :
    (build_email (cfgTricky (str "E"))).2 = str "XEY" ∧
    (build_email (cfgTricky (str "E"))).2 ≠ (cfgTricky (str "E")).profile.name := by
  decide
